import Mathlib

/-!
Verification of the serverless-attach-managed-policy plugin.

The repository contains two revisions of the same plugin class:
  * `src/unnamed/part_000` — normalizes the configuration per role
    (`policiesArray`), validates each policy ARN inside the per-role loop,
    and appends new ARNs after the existing `ManagedPolicyArns`;
  * `src/lib/index.js`     — validates up front (`verifyConfig`) and merges
    by `policies.concat(existing).filter(firstOccurrence)`, i.e. prepends
    the configured ARNs before the existing ones and de-duplicates.

Both are embedded below (namespaces `Part000` and `LibIndex`); shared pieces
(the ARN regular expression, the JavaScript truthiness of the configuration
value, resource records) sit in the common namespace.

Conventions of the embedding:
  * JavaScript objects keep key insertion order, so the `Resources` mapping
    is a `List (String × Resource)` traversed in order (`Object.keys`).
  * A thrown `Error` is modelled by threading an `Option String` through the
    computation; the resource list carried alongside is the state at the
    moment of the throw, so partial mutation before an error is observable.
  * `ManagedPolicyArns` is `Option (List String)`: `none` is an absent
    attribute (JavaScript `undefined`, falsy), `some l` a present array
    (always truthy, even when empty).
-/

namespace AttachManagedPolicy

/-- The raw `provider.managedPolicyArns` value: a string, an array of
strings, or any other JavaScript value (`other` records only whether that
value is truthy, which is all the plugin inspects of it). -/
inductive ConfigValue where
  | str (s : String)
  | arr (l : List String)
  | other (truthy : Bool)
deriving DecidableEq

/-- JavaScript truthiness of the (possibly absent) configuration value, as
tested by `if (!(this.serverless.service.provider.managedPolicyArns)) return`:
`undefined`/`null` and the empty string are falsy, arrays are always truthy. -/
def configTruthy : Option ConfigValue → Bool
  | none => false
  | some (.str s) => !(s == "")
  | some (.arr _) => true
  | some (.other t) => t

/-- `Properties` of a CloudFormation resource: the fields the plugin reads or
writes (`RoleName`, `ManagedPolicyArns`) plus the remaining attributes,
carried opaquely to state frame conditions. -/
structure RoleProps where
  RoleName : String
  ManagedPolicyArns : Option (List String)
  otherProps : List (String × String)
deriving DecidableEq

/-- A CloudFormation resource: its `Type` discriminator and `Properties`. -/
structure Resource where
  Type' : String
  Properties : RoleProps
deriving DecidableEq

/-- The observable outcome of `attachManagedPolicy`: the resource mapping
after the call (partially mutated when an error was thrown), the log lines
emitted through `cli.log` in order, and the thrown error message if any. -/
structure AttachOut where
  Resources : Option (List (String × Resource))
  logs : List String
  err : Option String
deriving DecidableEq

/-- JavaScript line terminators, which `.` in a regular expression does not
match and before which `$` (without the `m` flag) does not match. -/
def isJsLineTerminator (c : Char) : Bool :=
  c == '\n' || c == '\r' || c == Char.ofNat 0x2028 || c == Char.ofNat 0x2029

/-- Strip the literal `lit` from the front of `s`, returning the remainder;
`none` when `s` does not start with `lit`. -/
def dropLit : List Char → List Char → Option (List Char)
  | [], s => some s
  | _ :: _, [] => none
  | c :: cs, d :: ds => if d == c then dropLit cs ds else none

/-- The structural part of the pattern `^arn:aws:iam::[0-9]+:policy\x2f`:
strip the provider prefix, take the (maximal, non-empty) digit run, strip the
literal `:policy/`, and return what follows. Greedy matching of `[0-9]+` is
equivalent to taking the maximal digit run: backtracking to a shorter run
cannot help, since the regex then requires `:`, which is not a digit. -/
def arnRemainder (s : String) : Option (List Char) :=
  match dropLit "arn:aws:iam::".data s.data with
  | none => none
  | some r1 =>
    let digits := r1.takeWhile Char.isDigit
    let rest := r1.dropWhile Char.isDigit
    if digits.isEmpty then none
    else dropLit ":policy/".data rest

/-- The test `policyArn.match(/^arn:aws:iam::[0-9]+:policy\x2f.*$/)` used by
both revisions: the structural prefix must parse, and `.*$` accepts exactly a
remainder free of line terminators (`.` does not match them, and `$` without
the `m` flag matches only at the very end of the input). -/
def matchPolicyArn (s : String) : Bool :=
  match arnRemainder s with
  | none => false
  | some r2 => r2.all (fun c => !(isJsLineTerminator c))

end AttachManagedPolicy

namespace AttachManagedPolicy.Part000

open AttachManagedPolicy

/-- `policiesArray` of `src/unnamed/part_000`: a string becomes a one-element
array, an array is returned as is, anything else throws. -/
def policiesArray : ConfigValue → Except String (List String)
  | .str s => .ok [s]
  | .arr l => .ok l
  | .other _ => .error "managedPolicyArns must be an array"

/-- `applyPoliciesToRole` of `src/unnamed/part_000`: for each policy in order,
throw if it fails the ARN pattern; skip it (with a log line) when already in
`ManagedPolicyArns`; otherwise append it to the existing array or start a new
one. Returns the updated properties, the log lines, and the thrown error. -/
def applyPoliciesToRole : List String → RoleProps → RoleProps × List String × Option String
  | [], role => (role, [], none)
  | p :: ps, role =>
    if matchPolicyArn p = false then
      (role, [], some ("\"" ++ p ++ "\" is not a valid policy ARN."))
    else
      match role.ManagedPolicyArns with
      | some l =>
        if l.contains p then
          let out := applyPoliciesToRole ps role
          (out.1, (role.RoleName ++ " role already has policy " ++ p ++ " applied, skipping.") :: out.2.1, out.2.2)
        else
          let out := applyPoliciesToRole ps { role with ManagedPolicyArns := some (l ++ [p]) }
          (out.1, ("Adding " ++ p ++ " to existing ManagedPolicyArns policies for " ++ role.RoleName ++ ".") :: out.2.1, out.2.2)
      | none =>
        let out := applyPoliciesToRole ps { role with ManagedPolicyArns := some [p] }
        (out.1, ("Setting " ++ p ++ " as ManagedPolicyArn for " ++ role.RoleName ++ ".") :: out.2.1, out.2.2)

/-- The `Object.keys(resources).filter(Type).forEach(...)` loop of
`attachManagedPolicy` in `src/unnamed/part_000`: for every resource of type
`AWS::IAM::Role`, in key order, normalize the configuration (throwing if it is
neither a string nor an array) and apply the policies; a throw aborts the loop
with the mutations made so far in place. -/
def attachLoop (cfg : ConfigValue) : List (String × Resource) → List (String × Resource) × List String × Option String
  | [] => ([], [], none)
  | (k, r) :: rest =>
    if r.Type' == "AWS::IAM::Role" then
      match policiesArray cfg with
      | .error e => ((k, r) :: rest, [], some e)
      | .ok ps =>
        let out := applyPoliciesToRole ps r.Properties
        match out.2.2 with
        | some e => ((k, { r with Properties := out.1 }) :: rest, out.2.1, some e)
        | none =>
          let tail := attachLoop cfg rest
          ((k, { r with Properties := out.1 }) :: tail.1, out.2.1 ++ tail.2.1, tail.2.2)
    else
      let tail := attachLoop cfg rest
      ((k, r) :: tail.1, tail.2.1, tail.2.2)

/-- `attachManagedPolicy` of `src/unnamed/part_000`: bail silently when the
configuration or the `Resources` mapping is falsy; otherwise log the two
header lines, run the loop, and log the trailing line unless an error was
thrown. -/
def attachManagedPolicy (cfg : Option ConfigValue) (resources : Option (List (String × Resource))) : AttachOut :=
  if configTruthy cfg = false then ⟨resources, [], none⟩
  else
    match resources with
    | none => ⟨none, [], none⟩
    | some res =>
      match cfg with
      | none => ⟨some res, [], none⟩
      | some c =>
        let out := attachLoop c res
        match out.2.2 with
        | some e => ⟨some out.1, "Adding managed policies..." :: "Searching for roles..." :: out.2.1, some e⟩
        | none => ⟨some out.1, "Adding managed policies..." :: "Searching for roles..." :: (out.2.1 ++ ["Managed policy done."]), none⟩

end AttachManagedPolicy.Part000

namespace AttachManagedPolicy.LibIndex

open AttachManagedPolicy

/-- The `forEach` validation loop of `verifyConfig` in `src/lib/index.js`:
throws at the first element failing the ARN pattern. -/
def validatePolicies : List String → Except String Unit
  | [] => .ok ()
  | p :: ps =>
    if matchPolicyArn p = false then
      .error ("\"" ++ p ++ "\" is not a valid policy ARN.")
    else validatePolicies ps

/-- `verifyConfig` of `src/lib/index.js`: when the configuration value is
truthy, normalize it (string to one-element array, array as is, otherwise
throw) and validate every element; returns the normalized array
(`this.policiesArray`), or `none` when the value was falsy and nothing was
checked. -/
def verifyConfig (cfg : Option ConfigValue) : Except String (Option (List String)) :=
  if configTruthy cfg = false then .ok none
  else
    match cfg with
    | some (.str s) => (validatePolicies [s]).map (fun _ => some [s])
    | some (.arr l) => (validatePolicies l).map (fun _ => some l)
    | some (.other _) => .error "managedPolicyArns must be a single policy ARN or an array of them"
    | none => .ok none

/-- The JavaScript idiom
`list.filter((elem, index, self) => index === self.indexOf(elem))` from
`applyPoliciesToRole` in `src/lib/index.js`: keep each element exactly at the
first index where it occurs. -/
def jsUniq (l : List String) : List String :=
  (l.enum.filter (fun q => List.indexOf q.2 l == q.1)).map Prod.snd

/-- `applyPoliciesToRole` of `src/lib/index.js`: log one line for the role,
then set `ManagedPolicyArns` to
`policies.concat(existing || []).filter(firstOccurrence)`. -/
def applyPoliciesToRole (policies : List String) (role : RoleProps) : RoleProps × List String :=
  ({ role with ManagedPolicyArns := some (jsUniq (policies ++ role.ManagedPolicyArns.getD [])) },
   ["Updating managed policies for " ++ role.RoleName ++ "..."])

/-- The `Object.keys(resources).filter(Type).forEach(...)` loop of
`attachManagedPolicy` in `src/lib/index.js`. -/
def attachLoop (ps : List String) : List (String × Resource) → List (String × Resource) × List String
  | [] => ([], [])
  | (k, r) :: rest =>
    if r.Type' == "AWS::IAM::Role" then
      let out := applyPoliciesToRole ps r.Properties
      let tail := attachLoop ps rest
      ((k, { r with Properties := out.1 }) :: tail.1, out.2 ++ tail.2)
    else
      let tail := attachLoop ps rest
      ((k, r) :: tail.1, tail.2)

/-- `attachManagedPolicy` of `src/lib/index.js`: bail silently when the
configuration or the `Resources` mapping is falsy; run `verifyConfig` (whose
throw propagates before any log line or mutation); then log the begin line,
update every role, and log the done line. The `getD []` arm is unreachable:
under a truthy configuration `verifyConfig` always returns a normalized
array. -/
def attachManagedPolicy (cfg : Option ConfigValue) (resources : Option (List (String × Resource))) : AttachOut :=
  if configTruthy cfg = false then ⟨resources, [], none⟩
  else
    match resources with
    | none => ⟨none, [], none⟩
    | some res =>
      match verifyConfig cfg with
      | .error e => ⟨some res, [], some e⟩
      | .ok pso =>
        let ps := pso.getD []
        let out := attachLoop ps res
        ⟨some out.1, "Begin Attach Managed Policies plugin..." :: (out.2 ++ ["Attach Managed Policies plugin done."]), none⟩

end AttachManagedPolicy.LibIndex

namespace AttachManagedPolicy

/-- First-occurrence de-duplication of a list of strings: the recursive
description of the keep-first-occurrence filter. `LibIndex.jsUniq` is proved
equal to it below, and the append-only merge of `Part000.applyPoliciesToRole`
is characterised through it. -/
def dedupFirst : List String → List String
  | [] => []
  | a :: l => a :: dedupFirst (l.filter (fun b => !(b == a)))
termination_by l => l.length
decreasing_by simp only [List.length_cons]; exact Nat.lt_succ_of_le (List.length_filter_le _ _)

/-- The frame relation of one resource entry before and after a call: the
key, the `Type`, the `RoleName` and all other properties are untouched, and a
resource that is not an IAM role is untouched entirely. -/
def FrameRel (a b : String × Resource) : Prop :=
  a.1 = b.1 ∧
  a.2.Type' = b.2.Type' ∧
  a.2.Properties.RoleName = b.2.Properties.RoleName ∧
  a.2.Properties.otherProps = b.2.Properties.otherProps ∧
  (a.2.Type' ≠ "AWS::IAM::Role" → b = a)

end AttachManagedPolicy

namespace AttachManagedPolicy.Examples

open AttachManagedPolicy

/-- The managed-policy ARN used throughout the repository's test suite. -/
def arnA : String := "arn:aws:iam::789763425617:policy/someteam/MyManagedPolicy-3QUG1777293EJ"

/-- The second managed-policy ARN of the repository's test suite. -/
def arnB : String := "arn:aws:iam::789763425617:policy/someteam/AnotherManagedPolicy-F6NZ1321293EJ"

/-- An IAM-role resource with the given name and `ManagedPolicyArns`, no
other properties. -/
def mkRole (nm : String) (mp : Option (List String)) : Resource :=
  ⟨"AWS::IAM::Role", ⟨nm, mp, []⟩⟩

end AttachManagedPolicy.Examples

namespace AttachManagedPolicy.Part000

open AttachManagedPolicy

/-- The value-level effect of `Part000.applyPoliciesToRole` on
`ManagedPolicyArns` when every policy is a valid ARN (proved below):
pre-existing entries stay in place and in order, and the configured policies
not yet present are appended, in configuration order, first occurrence only.
An absent attribute stays absent for an empty policy list, and otherwise
becomes the de-duplicated policy list. -/
def mergeMp (mp : Option (List String)) (ps : List String) : Option (List String) :=
  match mp with
  | some l => some (l ++ dedupFirst (ps.filter (fun p => !(l.contains p))))
  | none => if ps.isEmpty then none else some (dedupFirst ps)

/-- The per-resource effect of `Part000.attachLoop` when no error occurs. -/
def updateResource (ps : List String) (kr : String × Resource) : String × Resource :=
  if kr.2.Type' == "AWS::IAM::Role" then
    (kr.1, { kr.2 with Properties := (applyPoliciesToRole ps kr.2.Properties).1 })
  else kr

end AttachManagedPolicy.Part000

namespace AttachManagedPolicy.LibIndex

open AttachManagedPolicy

/-- The per-resource effect of `LibIndex.attachLoop`. -/
def updateResource (ps : List String) (kr : String × Resource) : String × Resource :=
  if kr.2.Type' == "AWS::IAM::Role" then
    (kr.1, { kr.2 with Properties := (applyPoliciesToRole ps kr.2.Properties).1 })
  else kr

end AttachManagedPolicy.LibIndex

namespace AttachManagedPolicy

theorem dropLit_append (lit s : List Char) : dropLit lit (lit ++ s) = some s := by
  induction lit with
  | nil => rfl
  | cons c cs ih => simp [dropLit, ih]

theorem eq_append_of_dropLit {lit s r : List Char} (h : dropLit lit s = some r) : s = lit ++ r := by
  induction lit generalizing s with
  | nil =>
    simp only [dropLit, Option.some.injEq] at h
    simpa using h
  | cons c cs ih =>
    cases s with
    | nil => simp [dropLit] at h
    | cons d ds =>
      simp only [dropLit] at h
      split at h
      · next hdc =>
        have hd : d = c := by simpa using hdc
        subst hd
        simpa using ih h
      · exact absurd h (by simp)

theorem takeWhile_all_append {p : Char → Bool} {xs : List Char} (c : Char) (rest : List Char)
    (hxs : ∀ x ∈ xs, p x = true) (hc : p c = false) :
    (xs ++ c :: rest).takeWhile p = xs := by
  induction xs with
  | nil => simp [List.takeWhile_cons, hc]
  | cons a xs ih =>
    have ha : p a = true := hxs a (List.mem_cons_self a xs)
    simp [List.takeWhile_cons, ha, ih (fun x hx => hxs x (List.mem_cons_of_mem a hx))]

theorem dropWhile_all_append {p : Char → Bool} {xs : List Char} (c : Char) (rest : List Char)
    (hxs : ∀ x ∈ xs, p x = true) (hc : p c = false) :
    (xs ++ c :: rest).dropWhile p = c :: rest := by
  induction xs with
  | nil => simp [List.dropWhile_cons, hc]
  | cons a xs ih =>
    have ha : p a = true := hxs a (List.mem_cons_self a xs)
    simp [List.dropWhile_cons, ha, ih (fun x hx => hxs x (List.mem_cons_of_mem a hx))]

theorem all_takeWhile (p : Char → Bool) (l : List Char) : (l.takeWhile p).all p = true := by
  induction l with
  | nil => rfl
  | cons a l ih =>
    by_cases h : p a = true
    · simp [List.takeWhile_cons, h, ih]
    · simp [List.takeWhile_cons, Bool.eq_false_iff.mpr h]

theorem string_mk_append (a b : List Char) : String.mk (a ++ b) = String.mk a ++ String.mk b := rfl

theorem string_eq_of_data {a b : String} (h : a.data = b.data) : a = b := by
  cases a with
  | mk as =>
    cases b with
    | mk bs =>
      simp only [String.data] at h
      subst h
      rfl

theorem eq_empty_of_data_eq_nil {d : String} (h : d.data = []) : d = "" := by
  cases d with
  | mk cs => simp only [String.data] at h; subst h; rfl

theorem arnRemainder_sound {s : String} {r2 : List Char} (h : arnRemainder s = some r2) :
    ∃ d : String, s = "arn:aws:iam::" ++ d ++ ":policy/" ++ String.mk r2 ∧ d ≠ "" ∧
      d.data.all Char.isDigit = true := by
  simp only [arnRemainder] at h
  cases heq : dropLit "arn:aws:iam::".data s.data with
  | none => rw [heq] at h; exact absurd h (by simp)
  | some r1 =>
    rw [heq] at h
    simp only at h
    split at h
    · exact absurd h (by simp)
    · next hne =>
      have hdig : (r1.takeWhile Char.isDigit) ≠ [] := by
        intro hnil
        exact hne (by simp [hnil])
      have hs : s.data = "arn:aws:iam::".data ++ r1 := eq_append_of_dropLit heq
      have hrest : r1.dropWhile Char.isDigit = ":policy/".data ++ r2 := eq_append_of_dropLit h
      refine ⟨String.mk (r1.takeWhile Char.isDigit), ?_, ?_, ?_⟩
      · have hr1 : r1 = r1.takeWhile Char.isDigit ++ (":policy/".data ++ r2) := by
          conv_lhs => rw [← List.takeWhile_append_dropWhile (p := Char.isDigit) (l := r1)]
          rw [hrest]
        apply string_eq_of_data
        rw [hs]
        conv_lhs => rw [hr1]
        simp [String.data_append, List.append_assoc]
      · intro hempty
        have := congrArg String.data hempty
        simp only [String.data] at this
        exact hdig this
      · exact all_takeWhile Char.isDigit r1

theorem arnRemainder_complete (d r : String) (hd : d ≠ "") (hdig : d.data.all Char.isDigit = true) :
    arnRemainder ("arn:aws:iam::" ++ d ++ ":policy/" ++ r) = some r.data := by
  have hdata : ("arn:aws:iam::" ++ d ++ ":policy/" ++ r).data =
      "arn:aws:iam::".data ++ (d.data ++ (':' :: ("policy/".data ++ r.data))) := by
    simp [String.data_append, List.append_assoc]
  have hall : ∀ x ∈ d.data, Char.isDigit x = true := List.all_eq_true.mp hdig
  have hcolon : Char.isDigit ':' = false := rfl
  have hne : d.data ≠ [] := fun hnil => hd (eq_empty_of_data_eq_nil hnil)
  simp only [arnRemainder, hdata, dropLit_append]
  rw [takeWhile_all_append ':' _ hall hcolon, dropWhile_all_append ':' _ hall hcolon]
  have : (':' :: ("policy/".data ++ r.data)) = ":policy/".data ++ r.data := rfl
  rw [if_neg (by simpa [List.isEmpty_iff] using hne), this, dropLit_append]

theorem matchPolicyArn_iff (s : String) :
    matchPolicyArn s = true ↔
      ∃ d r : String, s = "arn:aws:iam::" ++ d ++ ":policy/" ++ r ∧ d ≠ "" ∧
        d.data.all Char.isDigit = true ∧ r.data.all (fun c => !(isJsLineTerminator c)) = true := by
  constructor
  · intro h
    simp only [matchPolicyArn] at h
    cases heq : arnRemainder s with
    | none => rw [heq] at h; exact absurd h (by simp)
    | some r2 =>
      rw [heq] at h
      obtain ⟨d, hs, hd, hdig⟩ := arnRemainder_sound heq
      exact ⟨d, String.mk r2, hs, hd, hdig, h⟩
  · rintro ⟨d, r, hs, hd, hdig, hclean⟩
    rw [hs]
    simp [matchPolicyArn, arnRemainder_complete d r hd hdig, hclean]

end AttachManagedPolicy

namespace AttachManagedPolicy

theorem contains_true_iff (l : List String) (a : String) : l.contains a = true ↔ a ∈ l := by
  simp [List.contains, List.elem_iff]

theorem mem_dedupFirst {x : String} {l : List String} : x ∈ dedupFirst l ↔ x ∈ l := by
  induction l using dedupFirst.induct with
  | case1 => simp [dedupFirst]
  | case2 a l ih =>
    rw [dedupFirst]
    simp only [List.mem_cons, ih, List.mem_filter]
    constructor
    · rintro (h | ⟨h, _⟩) <;> simp [h]
    · rintro (h | h)
      · exact Or.inl h
      · by_cases hxa : x = a
        · exact Or.inl hxa
        · exact Or.inr ⟨h, by simp [hxa]⟩

theorem nodup_dedupFirst (l : List String) : (dedupFirst l).Nodup := by
  induction l using dedupFirst.induct with
  | case1 => simp [dedupFirst]
  | case2 a l ih =>
    rw [dedupFirst]
    refine List.nodup_cons.mpr ⟨?_, ih⟩
    intro hmem
    have := mem_dedupFirst.mp hmem
    simp [List.mem_filter] at this

theorem filter_dedupFirst (p : String → Bool) (l : List String) :
    (dedupFirst l).filter p = dedupFirst (l.filter p) := by
  induction l using dedupFirst.induct with
  | case1 => simp [dedupFirst]
  | case2 a l ih =>
    by_cases hpa : p a = true
    · rw [dedupFirst, List.filter_cons_of_pos hpa, ih, List.filter_cons_of_pos hpa, dedupFirst]
      congr 1
      rw [List.filter_filter, List.filter_filter]
      exact congrArg dedupFirst (List.filter_congr (fun x _ => Bool.and_comm _ _))
    · rw [dedupFirst, List.filter_cons_of_neg (by simpa using hpa), ih,
        List.filter_cons_of_neg (by simpa using hpa)]
      congr 1
      rw [List.filter_filter]
      refine List.filter_congr (fun x hx => ?_)
      cases hb : p x with
      | false => simp [hb]
      | true =>
        have hxa : ¬(x = a) := fun h => hpa (h ▸ hb)
        simp [hb, hxa]

theorem dedupFirst_idem (l : List String) : dedupFirst (dedupFirst l) = dedupFirst l := by
  induction l using dedupFirst.induct with
  | case1 => simp [dedupFirst]
  | case2 a l ih =>
    conv_lhs => rw [dedupFirst]
    conv_lhs => rw [dedupFirst]
    rw [filter_dedupFirst]
    have hff : (l.filter (fun b => !(b == a))).filter (fun b => !(b == a)) =
        l.filter (fun b => !(b == a)) := by
      rw [List.filter_filter]
      exact List.filter_congr (fun x _ => by simp [Bool.and_self])
    rw [hff, ih, dedupFirst]

theorem dedupFirst_append_dedupFirst (xs ys : List String) :
    dedupFirst (xs ++ dedupFirst ys) = dedupFirst (xs ++ ys) := by
  induction xs using dedupFirst.induct generalizing ys with
  | case1 => simpa using dedupFirst_idem ys
  | case2 a xs ih =>
    rw [List.cons_append, List.cons_append, dedupFirst, dedupFirst,
      List.filter_append, List.filter_append, filter_dedupFirst, ih]

theorem dedupFirst_append_self (xs ys : List String) :
    dedupFirst (xs ++ (xs ++ ys)) = dedupFirst (xs ++ ys) := by
  induction xs using dedupFirst.induct generalizing ys with
  | case1 => simp
  | case2 a xs ih =>
    rw [List.cons_append, List.cons_append, dedupFirst, dedupFirst,
      List.filter_append, List.filter_cons_of_neg (by simp),
      List.filter_append, ih]

theorem dedupFirst_snoc (l : List String) (a : String) :
    dedupFirst (l ++ [a]) = dedupFirst l ++ (if a ∈ l then [] else [a]) := by
  induction l using dedupFirst.induct with
  | case1 => simp [dedupFirst]
  | case2 x l ih =>
    rw [List.cons_append, dedupFirst, dedupFirst, List.filter_append]
    by_cases hax : a = x
    · subst hax
      rw [List.filter_cons_of_neg (by simp), List.filter_nil, List.append_nil,
        if_pos (List.mem_cons_self a l), List.append_nil]
    · rw [List.filter_cons_of_pos (by simp [hax]), List.filter_nil, ih]
      have hmem : a ∈ l.filter (fun b => !(b == x)) ↔ a ∈ l := by
        simp [List.mem_filter, hax]
      by_cases hal : a ∈ l
      · rw [if_pos (hmem.mpr hal), if_pos (List.mem_cons_of_mem x hal), List.append_nil,
          List.append_nil]
      · rw [if_neg (fun h => hal (hmem.mp h)), if_neg (by simp [hax, hal]), List.cons_append]

end AttachManagedPolicy

namespace AttachManagedPolicy

theorem jsUniq_snoc (l : List String) (a : String) :
    LibIndex.jsUniq (l ++ [a]) = LibIndex.jsUniq l ++ (if a ∈ l then [] else [a]) := by
  unfold LibIndex.jsUniq
  rw [List.enum_append]
  have henum : List.enumFrom l.length [a] = [(l.length, a)] := rfl
  rw [henum, List.filter_append, List.map_append]
  congr 1
  · congr 1
    refine List.filter_congr (fun q hq => ?_)
    have hql : q.2 ∈ l := by
      have := List.mem_map_of_mem Prod.snd hq
      rwa [List.enum_map_snd] at this
    rw [List.indexOf_append_of_mem hql]
  · by_cases hal : a ∈ l
    · have hlt : List.indexOf a l < l.length := List.indexOf_lt_length.mpr hal
      have hpred : (List.indexOf ((l.length, a) : ℕ × String).2 (l ++ [a]) == ((l.length, a) : ℕ × String).1) = false := by
        simp only [List.indexOf_append_of_mem hal]
        simp only [beq_eq_false_iff_ne, ne_eq]
        exact Nat.ne_of_lt hlt
      rw [if_pos hal]
      simp [List.filter_cons, hpred]
    · have hpred : (List.indexOf ((l.length, a) : ℕ × String).2 (l ++ [a]) == ((l.length, a) : ℕ × String).1) = true := by
        simp only [List.indexOf_append_of_not_mem hal]
        simp [List.indexOf_cons_self]
      rw [if_neg hal]
      simp [List.filter_cons, hpred]

theorem jsUniq_eq_dedupFirst (l : List String) : LibIndex.jsUniq l = dedupFirst l := by
  induction l using List.reverseRecOn with
  | nil => simp [LibIndex.jsUniq, dedupFirst]
  | append_singleton l a ih => rw [jsUniq_snoc, dedupFirst_snoc, ih]

end AttachManagedPolicy

namespace AttachManagedPolicy

theorem contains_eq_decide (l : List String) (q : String) : l.contains q = decide (q ∈ l) := by
  simp [List.contains, List.elem_iff]

theorem contains_append_eq (l1 l2 : List String) (q : String) :
    (l1 ++ l2).contains q = (l1.contains q || l2.contains q) := by
  simp [contains_eq_decide, List.mem_append]

theorem contains_singleton_eq (p q : String) : [p].contains q = (q == p) := by
  rw [Bool.eq_iff_iff]
  simp [contains_eq_decide, beq_iff_eq]

end AttachManagedPolicy

namespace AttachManagedPolicy.Part000

open AttachManagedPolicy

theorem apply_nil (role : RoleProps) : applyPoliciesToRole [] role = (role, [], none) := rfl

theorem apply_cons_skip {p : String} {ps : List String} {role : RoleProps} {l : List String}
    (hp : matchPolicyArn p = true) (hmp : role.ManagedPolicyArns = some l)
    (hc : l.contains p = true) :
    applyPoliciesToRole (p :: ps) role =
      ((applyPoliciesToRole ps role).1,
       (role.RoleName ++ " role already has policy " ++ p ++ " applied, skipping.") ::
         (applyPoliciesToRole ps role).2.1,
       (applyPoliciesToRole ps role).2.2) := by
  have hmem : p ∈ l := (contains_true_iff l p).mp hc
  simp [applyPoliciesToRole, hp, hmp, hmem]

theorem apply_cons_add {p : String} {ps : List String} {role : RoleProps} {l : List String}
    (hp : matchPolicyArn p = true) (hmp : role.ManagedPolicyArns = some l)
    (hc : l.contains p = false) :
    applyPoliciesToRole (p :: ps) role =
      ((applyPoliciesToRole ps { role with ManagedPolicyArns := some (l ++ [p]) }).1,
       ("Adding " ++ p ++ " to existing ManagedPolicyArns policies for " ++ role.RoleName ++ ".") ::
         (applyPoliciesToRole ps { role with ManagedPolicyArns := some (l ++ [p]) }).2.1,
       (applyPoliciesToRole ps { role with ManagedPolicyArns := some (l ++ [p]) }).2.2) := by
  have hmem : p ∉ l := by
    intro h
    rw [(contains_true_iff l p).mpr h] at hc
    simp at hc
  simp [applyPoliciesToRole, hp, hmp, hmem]

theorem apply_cons_set {p : String} {ps : List String} {role : RoleProps}
    (hp : matchPolicyArn p = true) (hmp : role.ManagedPolicyArns = none) :
    applyPoliciesToRole (p :: ps) role =
      ((applyPoliciesToRole ps { role with ManagedPolicyArns := some [p] }).1,
       ("Setting " ++ p ++ " as ManagedPolicyArn for " ++ role.RoleName ++ ".") ::
         (applyPoliciesToRole ps { role with ManagedPolicyArns := some [p] }).2.1,
       (applyPoliciesToRole ps { role with ManagedPolicyArns := some [p] }).2.2) := by
  simp [applyPoliciesToRole, hp, hmp]

theorem apply_ok : ∀ (ps : List String), (∀ p ∈ ps, matchPolicyArn p = true) →
    ∀ role : RoleProps,
      (applyPoliciesToRole ps role).1 =
        { role with ManagedPolicyArns := mergeMp role.ManagedPolicyArns ps } ∧
      (applyPoliciesToRole ps role).2.2 = none := by
  intro ps
  induction ps with
  | nil =>
    intro _ role
    refine ⟨?_, rfl⟩
    cases role with
    | mk rn mp op =>
      cases mp with
      | some l => simp [apply_nil, mergeMp, dedupFirst]
      | none => simp [apply_nil, mergeMp]
  | cons p ps ih =>
    intro hval role
    have hp : matchPolicyArn p = true := hval p (List.mem_cons_self p ps)
    have hval' : ∀ q ∈ ps, matchPolicyArn q = true :=
      fun q hq => hval q (List.mem_cons_of_mem p hq)
    cases hmp : role.ManagedPolicyArns with
    | some l =>
      by_cases hc : l.contains p = true
      · have hmem : p ∈ l := (contains_true_iff l p).mp hc
        have happ := ih hval' role
        have hm : mergeMp (some l) (p :: ps) = mergeMp (some l) ps := by
          simp [mergeMp, List.filter_cons, hmem]
        rw [apply_cons_skip hp hmp hc]
        refine ⟨?_, happ.2⟩
        rw [happ.1, hmp, hm]
      · have hcf : l.contains p = false := by simpa using hc
        have happ := ih hval' { role with ManagedPolicyArns := some (l ++ [p]) }
        have hfil : ps.filter (fun q => !((l ++ [p]).contains q)) =
            (ps.filter (fun q => !(l.contains q))).filter (fun q => !(q == p)) := by
          rw [List.filter_filter]
          refine List.filter_congr (fun q _ => ?_)
          rw [contains_append_eq, contains_singleton_eq, Bool.not_or]
          exact (Bool.and_comm _ _).symm
        have hval2 : mergeMp (some (l ++ [p])) ps = mergeMp (some l) (p :: ps) := by
          simp only [mergeMp, Option.some.injEq]
          rw [List.filter_cons_of_pos (by simp only [hcf, Bool.not_false]), dedupFirst, ← hfil,
            List.append_assoc]
          rfl
        rw [apply_cons_add hp hmp hcf]
        refine ⟨?_, happ.2⟩
        rw [happ.1]
        show ({ role with ManagedPolicyArns := mergeMp (some (l ++ [p])) ps } : RoleProps) =
          { role with ManagedPolicyArns := mergeMp (some l) (p :: ps) }
        rw [hval2]
    | none =>
      have happ := ih hval' { role with ManagedPolicyArns := some [p] }
      have hfil : ps.filter (fun q => !([p].contains q)) = ps.filter (fun q => !(q == p)) := by
        refine List.filter_congr (fun q _ => ?_)
        rw [contains_singleton_eq]
      have hval2 : mergeMp (some [p]) ps = mergeMp none (p :: ps) := by
        have h1 : mergeMp none (p :: ps) = some (dedupFirst (p :: ps)) := rfl
        rw [h1]
        simp only [mergeMp, Option.some.injEq]
        rw [dedupFirst, hfil]
        rfl
      rw [apply_cons_set hp hmp]
      refine ⟨?_, happ.2⟩
      rw [happ.1]
      show ({ role with ManagedPolicyArns := mergeMp (some [p]) ps } : RoleProps) =
        { role with ManagedPolicyArns := mergeMp none (p :: ps) }
      rw [hval2]

end AttachManagedPolicy.Part000

namespace AttachManagedPolicy.Part000

open AttachManagedPolicy

theorem apply_cons_err {p : String} {ps : List String} {role : RoleProps}
    (hpf : matchPolicyArn p = false) :
    applyPoliciesToRole (p :: ps) role =
      (role, [], some ("\"" ++ p ++ "\" is not a valid policy ARN.")) := by
  simp [applyPoliciesToRole, hpf]

theorem apply_frame : ∀ (ps : List String) (role : RoleProps),
    (applyPoliciesToRole ps role).1.RoleName = role.RoleName ∧
    (applyPoliciesToRole ps role).1.otherProps = role.otherProps := by
  intro ps
  induction ps with
  | nil => intro role; exact ⟨rfl, rfl⟩
  | cons p ps ih =>
    intro role
    by_cases hp : matchPolicyArn p = true
    · cases hmp : role.ManagedPolicyArns with
      | some l =>
        by_cases hc : l.contains p = true
        · rw [apply_cons_skip hp hmp hc]
          exact ih role
        · rw [apply_cons_add hp hmp (by simpa using hc)]
          simpa using ih { role with ManagedPolicyArns := some (l ++ [p]) }
      | none =>
        rw [apply_cons_set hp hmp]
        simpa using ih { role with ManagedPolicyArns := some [p] }
    · have hpf : matchPolicyArn p = false := by simpa using hp
      rw [apply_cons_err hpf]
      exact ⟨rfl, rfl⟩

theorem loop_cons_role {c : ConfigValue} {k : String} {r : Resource} {rest : List (String × Resource)}
    {ps : List String} (hc : policiesArray c = .ok ps) (ht : (r.Type' == "AWS::IAM::Role") = true)
    (hok : (applyPoliciesToRole ps r.Properties).2.2 = none) :
    attachLoop c ((k, r) :: rest) =
      ((k, { r with Properties := (applyPoliciesToRole ps r.Properties).1 }) :: (attachLoop c rest).1,
       (applyPoliciesToRole ps r.Properties).2.1 ++ (attachLoop c rest).2.1,
       (attachLoop c rest).2.2) := by
  simp [attachLoop, ht, hc, hok]

theorem loop_cons_role_errcfg {c : ConfigValue} {k : String} {r : Resource}
    {rest : List (String × Resource)} {e : String} (hc : policiesArray c = .error e)
    (ht : (r.Type' == "AWS::IAM::Role") = true) :
    attachLoop c ((k, r) :: rest) = ((k, r) :: rest, [], some e) := by
  simp [attachLoop, ht, hc]

theorem loop_cons_role_errapply {c : ConfigValue} {k : String} {r : Resource}
    {rest : List (String × Resource)} {ps : List String} {e : String}
    (hc : policiesArray c = .ok ps) (ht : (r.Type' == "AWS::IAM::Role") = true)
    (he : (applyPoliciesToRole ps r.Properties).2.2 = some e) :
    attachLoop c ((k, r) :: rest) =
      ((k, { r with Properties := (applyPoliciesToRole ps r.Properties).1 }) :: rest,
       (applyPoliciesToRole ps r.Properties).2.1, some e) := by
  simp [attachLoop, ht, hc, he]

theorem loop_cons_nonrole {c : ConfigValue} {k : String} {r : Resource}
    {rest : List (String × Resource)} (ht : (r.Type' == "AWS::IAM::Role") = false) :
    attachLoop c ((k, r) :: rest) =
      ((k, r) :: (attachLoop c rest).1, (attachLoop c rest).2.1, (attachLoop c rest).2.2) := by
  simp [attachLoop, ht]

theorem loop_ok (ps : List String) (hval : ∀ p ∈ ps, matchPolicyArn p = true) :
    ∀ res : List (String × Resource),
      (attachLoop (.arr ps) res).1 = res.map (updateResource ps) ∧
      (attachLoop (.arr ps) res).2.2 = none := by
  intro res
  induction res with
  | nil => exact ⟨rfl, rfl⟩
  | cons kr rest ih =>
    obtain ⟨k, r⟩ := kr
    by_cases ht : (r.Type' == "AWS::IAM::Role") = true
    · have happ := apply_ok ps hval r.Properties
      rw [loop_cons_role (show policiesArray (ConfigValue.arr ps) = Except.ok ps from rfl) ht happ.2]
      refine ⟨?_, ih.2⟩
      simp only [List.map_cons, updateResource, ht, if_true, ih.1]
    · have htf : (r.Type' == "AWS::IAM::Role") = false := by simpa using ht
      rw [loop_cons_nonrole htf]
      refine ⟨?_, ih.2⟩
      simp only [List.map_cons, updateResource, htf, Bool.false_eq_true, if_false, ih.1]

theorem attach_falsy (cfg : Option ConfigValue) (resources : Option (List (String × Resource)))
    (hcf : configTruthy cfg = false) :
    attachManagedPolicy cfg resources = ⟨resources, [], none⟩ := by
  cases resources <;> simp [attachManagedPolicy, hcf]

theorem attach_noRes (cfg : Option ConfigValue) : attachManagedPolicy cfg none = ⟨none, [], none⟩ := by
  by_cases hcf : configTruthy cfg = false
  · simp [attachManagedPolicy, hcf]
  · simp [attachManagedPolicy, hcf]

theorem attach_resources (c : ConfigValue) (res : List (String × Resource))
    (hcf : configTruthy (some c) = true) :
    (attachManagedPolicy (some c) (some res)).Resources = some (attachLoop c res).1 := by
  cases hout : (attachLoop c res).2.2 with
  | some e => simp [attachManagedPolicy, hcf, hout]
  | none => simp [attachManagedPolicy, hcf, hout]

theorem attach_arr_ok (ps : List String) (res : List (String × Resource))
    (hval : ∀ p ∈ ps, matchPolicyArn p = true) :
    (attachManagedPolicy (some (.arr ps)) (some res)).Resources =
        some (res.map (updateResource ps)) ∧
    (attachManagedPolicy (some (.arr ps)) (some res)).err = none := by
  have hloop := loop_ok ps hval res
  constructor
  · rw [attach_resources (.arr ps) res rfl, hloop.1]
  · simp only [attachManagedPolicy, hloop.2]
    split <;> rfl

end AttachManagedPolicy.Part000

namespace AttachManagedPolicy.LibIndex

open AttachManagedPolicy

theorem validate_ok_iff (ps : List String) :
    validatePolicies ps = .ok () ↔ ∀ p ∈ ps, matchPolicyArn p = true := by
  induction ps with
  | nil => simp [validatePolicies]
  | cons p ps ih =>
    by_cases hp : matchPolicyArn p = true
    · simp [validatePolicies, hp, ih, List.forall_mem_cons]
    · have hpf : matchPolicyArn p = false := by simpa using hp
      simp [validatePolicies, hpf, List.forall_mem_cons]

theorem verifyConfig_arr_ok (ps : List String) (hval : ∀ p ∈ ps, matchPolicyArn p = true) :
    verifyConfig (some (.arr ps)) = .ok (some ps) := by
  have hv : validatePolicies ps = .ok () := (validate_ok_iff ps).mpr hval
  simp [verifyConfig, configTruthy, hv, Except.map]

theorem loop_fst (ps : List String) : ∀ res : List (String × Resource),
    (attachLoop ps res).1 = res.map (updateResource ps) := by
  intro res
  induction res with
  | nil => rfl
  | cons kr rest ih =>
    obtain ⟨k, r⟩ := kr
    by_cases ht : (r.Type' == "AWS::IAM::Role") = true
    · simp [attachLoop, updateResource, ht, ih]
    · have htf : (r.Type' == "AWS::IAM::Role") = false := by simpa using ht
      simp [attachLoop, updateResource, htf, ih]

theorem lib_attach_falsy (cfg : Option ConfigValue) (resources : Option (List (String × Resource)))
    (hcf : configTruthy cfg = false) :
    attachManagedPolicy cfg resources = ⟨resources, [], none⟩ := by
  cases resources <;> simp [attachManagedPolicy, hcf]

theorem lib_attach_noRes (cfg : Option ConfigValue) : attachManagedPolicy cfg none = ⟨none, [], none⟩ := by
  by_cases hcf : configTruthy cfg = false
  · simp [attachManagedPolicy, hcf]
  · simp [attachManagedPolicy, hcf]

theorem attach_verify_err {c : ConfigValue} {e : String} (res : List (String × Resource))
    (htruthy : configTruthy (some c) = true) (hv : verifyConfig (some c) = .error e) :
    attachManagedPolicy (some c) (some res) = ⟨some res, [], some e⟩ := by
  simp [attachManagedPolicy, htruthy, hv]

theorem attach_verify_ok {c : ConfigValue} {pso : Option (List String)}
    (res : List (String × Resource)) (htruthy : configTruthy (some c) = true)
    (hv : verifyConfig (some c) = .ok pso) :
    attachManagedPolicy (some c) (some res) =
      ⟨some (res.map (updateResource (pso.getD []))),
       "Begin Attach Managed Policies plugin..." ::
         ((attachLoop (pso.getD []) res).2 ++ ["Attach Managed Policies plugin done."]),
       none⟩ := by
  simp [attachManagedPolicy, htruthy, hv, loop_fst]

theorem attach_err (cfg : Option ConfigValue) (resources : Option (List (String × Resource)))
    (h : (attachManagedPolicy cfg resources).err.isSome = true) :
    (attachManagedPolicy cfg resources).Resources = resources ∧
    (attachManagedPolicy cfg resources).logs = [] := by
  by_cases hcf : configTruthy cfg = false
  · rw [lib_attach_falsy cfg resources hcf] at h
    simp at h
  · have htruthy : configTruthy cfg = true := by simpa using hcf
    cases resources with
    | none =>
      rw [lib_attach_noRes cfg] at h
      simp at h
    | some res =>
      cases cfg with
      | none => simp [configTruthy] at htruthy
      | some c =>
        cases hv : verifyConfig (some c) with
        | error e =>
          rw [attach_verify_err res htruthy hv]
          exact ⟨rfl, rfl⟩
        | ok pso =>
          rw [attach_verify_ok res htruthy hv] at h
          simp at h

end AttachManagedPolicy.LibIndex

namespace AttachManagedPolicy

theorem frameRel_refl (kr : String × Resource) : FrameRel kr kr :=
  ⟨rfl, rfl, rfl, rfl, fun _ => rfl⟩

theorem forall₂_frameRel_refl (res : List (String × Resource)) :
    List.Forall₂ FrameRel res res := by
  induction res with
  | nil => exact List.Forall₂.nil
  | cons kr rest ih => exact List.Forall₂.cons (frameRel_refl kr) ih

theorem frameRel_roleUpdate {k : String} {r : Resource} {props' : RoleProps}
    (ht : (r.Type' == "AWS::IAM::Role") = true)
    (hR : props'.RoleName = r.Properties.RoleName)
    (hO : props'.otherProps = r.Properties.otherProps) :
    FrameRel (k, r) (k, { r with Properties := props' }) := by
  refine ⟨rfl, rfl, hR.symm, hO.symm, fun hne => absurd ?_ hne⟩
  simpa using ht

theorem forall₂_map_frame {f : String × Resource → String × Resource}
    (h : ∀ kr, FrameRel kr (f kr)) (res : List (String × Resource)) :
    List.Forall₂ FrameRel res (res.map f) := by
  induction res with
  | nil => exact List.Forall₂.nil
  | cons kr rest ih => exact List.Forall₂.cons (h kr) ih

end AttachManagedPolicy

namespace AttachManagedPolicy.Part000

open AttachManagedPolicy

theorem update_frame (ps : List String) (kr : String × Resource) :
    FrameRel kr (updateResource ps kr) := by
  obtain ⟨k, r⟩ := kr
  by_cases ht : (r.Type' == "AWS::IAM::Role") = true
  · have hfr := apply_frame ps r.Properties
    rw [show updateResource ps (k, r) =
      (k, { r with Properties := (applyPoliciesToRole ps r.Properties).1 }) from by
        simp [updateResource, ht]]
    exact frameRel_roleUpdate ht hfr.1 hfr.2
  · have htf : (r.Type' == "AWS::IAM::Role") = false := by simpa using ht
    rw [show updateResource ps (k, r) = (k, r) from by simp [updateResource, htf]]
    exact frameRel_refl (k, r)

theorem loop_frame (c : ConfigValue) : ∀ res : List (String × Resource),
    List.Forall₂ FrameRel res (attachLoop c res).1 := by
  intro res
  induction res with
  | nil => exact List.Forall₂.nil
  | cons kr rest ih =>
    obtain ⟨k, r⟩ := kr
    by_cases ht : (r.Type' == "AWS::IAM::Role") = true
    · cases hc : policiesArray c with
      | error e =>
        rw [loop_cons_role_errcfg hc ht]
        exact List.Forall₂.cons (frameRel_refl (k, r)) (forall₂_frameRel_refl rest)
      | ok ps =>
        have hfr := apply_frame ps r.Properties
        cases he : (applyPoliciesToRole ps r.Properties).2.2 with
        | some e =>
          rw [loop_cons_role_errapply hc ht he]
          exact List.Forall₂.cons (frameRel_roleUpdate ht hfr.1 hfr.2) (forall₂_frameRel_refl rest)
        | none =>
          rw [loop_cons_role hc ht he]
          exact List.Forall₂.cons (frameRel_roleUpdate ht hfr.1 hfr.2) ih
    · have htf : (r.Type' == "AWS::IAM::Role") = false := by simpa using ht
      rw [loop_cons_nonrole htf]
      exact List.Forall₂.cons (frameRel_refl (k, r)) ih

theorem attach_frame (cfg : Option ConfigValue) (res : List (String × Resource)) :
    ∃ res', (attachManagedPolicy cfg (some res)).Resources = some res' ∧
      List.Forall₂ FrameRel res res' := by
  by_cases hcf : configTruthy cfg = false
  · exact ⟨res, by rw [attach_falsy cfg (some res) hcf], forall₂_frameRel_refl res⟩
  · cases cfg with
    | none => exact absurd rfl hcf
    | some c =>
      have htruthy : configTruthy (some c) = true := by simpa using hcf
      exact ⟨(attachLoop c res).1, attach_resources c res htruthy, loop_frame c res⟩

end AttachManagedPolicy.Part000

namespace AttachManagedPolicy.LibIndex

open AttachManagedPolicy

theorem lib_update_frame (ps : List String) (kr : String × Resource) :
    FrameRel kr (updateResource ps kr) := by
  obtain ⟨k, r⟩ := kr
  by_cases ht : (r.Type' == "AWS::IAM::Role") = true
  · rw [show updateResource ps (k, r) =
      (k, { r with Properties := (applyPoliciesToRole ps r.Properties).1 }) from by
        simp [updateResource, ht]]
    exact frameRel_roleUpdate ht rfl rfl
  · have htf : (r.Type' == "AWS::IAM::Role") = false := by simpa using ht
    rw [show updateResource ps (k, r) = (k, r) from by simp [updateResource, htf]]
    exact frameRel_refl (k, r)

theorem lib_attach_frame (cfg : Option ConfigValue) (res : List (String × Resource)) :
    ∃ res', (attachManagedPolicy cfg (some res)).Resources = some res' ∧
      List.Forall₂ FrameRel res res' := by
  by_cases hcf : configTruthy cfg = false
  · exact ⟨res, by rw [lib_attach_falsy cfg (some res) hcf], forall₂_frameRel_refl res⟩
  · cases cfg with
    | none => exact absurd rfl hcf
    | some c =>
      have htruthy : configTruthy (some c) = true := by simpa using hcf
      cases hv : verifyConfig (some c) with
      | error e =>
        exact ⟨res, by rw [attach_verify_err res htruthy hv], forall₂_frameRel_refl res⟩
      | ok pso =>
        refine ⟨res.map (updateResource (pso.getD [])), ?_, ?_⟩
        · rw [attach_verify_ok res htruthy hv]
        · exact forall₂_map_frame (lib_update_frame (pso.getD [])) res

end AttachManagedPolicy.LibIndex

namespace AttachManagedPolicy

theorem filter_not_contains_eq_nil {ps L : List String} (h : ∀ p ∈ ps, p ∈ L) :
    ps.filter (fun p => !(L.contains p)) = [] := by
  refine List.filter_eq_nil_iff.mpr (fun p hp => ?_)
  simp [contains_eq_decide, h p hp]

theorem nodup_jsUniq (l : List String) : (LibIndex.jsUniq l).Nodup := by
  rw [jsUniq_eq_dedupFirst]
  exact nodup_dedupFirst l

theorem jsUniq_merge_idem (ps E : List String) :
    LibIndex.jsUniq (ps ++ LibIndex.jsUniq (ps ++ E)) = LibIndex.jsUniq (ps ++ E) := by
  simp only [jsUniq_eq_dedupFirst]
  rw [dedupFirst_append_dedupFirst, dedupFirst_append_self]

end AttachManagedPolicy

namespace AttachManagedPolicy.Part000

open AttachManagedPolicy

theorem mergeMp_mem {ps : List String} {mp : Option (List String)} {L : List String}
    (hL : mergeMp mp ps = some L) : ∀ p ∈ ps, p ∈ L := by
  intro p hp
  cases mp with
  | some E =>
    simp only [mergeMp, Option.some.injEq] at hL
    subst hL
    by_cases hE : p ∈ E
    · exact List.mem_append_left _ hE
    · refine List.mem_append_right _ (mem_dedupFirst.mpr ?_)
      refine List.mem_filter.mpr ⟨hp, ?_⟩
      simp [contains_eq_decide, hE]
  | none =>
    simp only [mergeMp] at hL
    split at hL
    · exact absurd hL (by simp)
    · next hne =>
      obtain rfl : dedupFirst ps = L := by simpa using hL
      exact mem_dedupFirst.mpr hp

theorem mergeMp_idem (mp : Option (List String)) (ps : List String) :
    mergeMp (mergeMp mp ps) ps = mergeMp mp ps := by
  cases hm : mergeMp mp ps with
  | none =>
    cases mp with
    | some E => simp [mergeMp] at hm
    | none =>
      simp only [mergeMp] at hm ⊢
      split at hm
      · next he => simp [mergeMp, he]
      · exact absurd hm (by simp)
  | some L =>
    have hmem : ∀ p ∈ ps, p ∈ L := mergeMp_mem hm
    simp only [mergeMp, filter_not_contains_eq_nil hmem]
    simp [dedupFirst]

theorem mergeMp_nodup {mp : Option (List String)} {ps L : List String}
    (h : ∀ E, mp = some E → E.Nodup) (hL : mergeMp mp ps = some L) : L.Nodup := by
  cases mp with
  | some E =>
    simp only [mergeMp, Option.some.injEq] at hL
    subst hL
    refine List.Nodup.append (h E rfl) (nodup_dedupFirst _) ?_
    intro a haE hadf
    have := List.mem_filter.mp (mem_dedupFirst.mp hadf)
    simp [contains_eq_decide, haE] at this
  | none =>
    simp only [mergeMp] at hL
    split at hL
    · exact absurd hL (by simp)
    · obtain rfl : dedupFirst ps = L := by simpa using hL
      exact nodup_dedupFirst ps

theorem update_idem (ps : List String) (hval : ∀ p ∈ ps, matchPolicyArn p = true)
    (kr : String × Resource) :
    updateResource ps (updateResource ps kr) = updateResource ps kr := by
  obtain ⟨k, r⟩ := kr
  by_cases ht : (r.Type' == "AWS::IAM::Role") = true
  · have h1 := (apply_ok ps hval r.Properties).1
    rw [show updateResource ps (k, r) =
      (k, { r with Properties := (applyPoliciesToRole ps r.Properties).1 }) from by
        simp [updateResource, ht]]
    rw [show updateResource ps (k, { r with Properties := (applyPoliciesToRole ps r.Properties).1 }) =
      (k, { r with Properties := (applyPoliciesToRole ps (applyPoliciesToRole ps r.Properties).1).1 }) from by
        simp [updateResource, ht]]
    have h2 := (apply_ok ps hval (applyPoliciesToRole ps r.Properties).1).1
    rw [h2, h1]
    show (k, ({ r with Properties :=
        { r.Properties with ManagedPolicyArns := mergeMp (mergeMp r.Properties.ManagedPolicyArns ps) ps } } : Resource)) =
      (k, { r with Properties := { r.Properties with ManagedPolicyArns := mergeMp r.Properties.ManagedPolicyArns ps } })
    rw [mergeMp_idem]
  · have htf : (r.Type' == "AWS::IAM::Role") = false := by simpa using ht
    rw [show updateResource ps (k, r) = (k, r) from by simp [updateResource, htf]]
    rw [show updateResource ps (k, r) = (k, r) from by simp [updateResource, htf]]

end AttachManagedPolicy.Part000

namespace AttachManagedPolicy.LibIndex

open AttachManagedPolicy

theorem lib_update_idem (ps : List String) (kr : String × Resource) :
    updateResource ps (updateResource ps kr) = updateResource ps kr := by
  obtain ⟨k, r⟩ := kr
  by_cases ht : (r.Type' == "AWS::IAM::Role") = true
  · simp [updateResource, ht, applyPoliciesToRole, jsUniq_merge_idem]
  · have htf : (r.Type' == "AWS::IAM::Role") = false := by simpa using ht
    rw [show updateResource ps (k, r) = (k, r) from by simp [updateResource, htf]]
    rw [show updateResource ps (k, r) = (k, r) from by simp [updateResource, htf]]

end AttachManagedPolicy.LibIndex

namespace AttachManagedPolicy.Part000

open AttachManagedPolicy

theorem loop_othercfg : ∀ res : List (String × Resource),
    (∃ kr ∈ res, kr.2.Type' = "AWS::IAM::Role") →
    attachLoop (.other true) res = (res, [], some "managedPolicyArns must be an array") := by
  intro res
  induction res with
  | nil => rintro ⟨kr, h, _⟩; cases h
  | cons kr rest ih =>
    rintro ⟨kr', hmem, hrole⟩
    obtain ⟨k, r⟩ := kr
    by_cases ht : (r.Type' == "AWS::IAM::Role") = true
    · rw [loop_cons_role_errcfg (show policiesArray (.other true) =
        Except.error "managedPolicyArns must be an array" from rfl) ht]
    · have htf : (r.Type' == "AWS::IAM::Role") = false := by simpa using ht
      rw [loop_cons_nonrole htf]
      rcases List.mem_cons.mp hmem with heq | hmem'
      · subst heq
        rw [hrole] at htf
        simp at htf
      · rw [ih ⟨kr', hmem', hrole⟩]

theorem attach_othercfg (res : List (String × Resource))
    (hex : ∃ kr ∈ res, kr.2.Type' = "AWS::IAM::Role") :
    attachManagedPolicy (some (.other true)) (some res) =
      ⟨some res, ["Adding managed policies...", "Searching for roles..."],
       some "managedPolicyArns must be an array"⟩ := by
  have hloop := loop_othercfg res hex
  simp [attachManagedPolicy, configTruthy, hloop]

end AttachManagedPolicy.Part000

namespace AttachManagedPolicy

/-- Claim C1, counterexample: in the `src/unnamed/part_000` revision the claim
fails. With configuration `[arnA, "bad"]` and one role with no prior
`ManagedPolicyArns`, `attachManagedPolicy` throws the ConfigurationError for
`"bad"`, yet the role has already been mutated: its `ManagedPolicyArns` is
`[arnA]` at the moment of the throw, so the collection is not the original
one. -/
theorem c1_counterexample :
    ((Part000.attachManagedPolicy (some (.arr [Examples.arnA, "bad"]))
        (some [("MyRole", Examples.mkRole "MyRole" none)])).err).isSome = true ∧
    (Part000.attachManagedPolicy (some (.arr [Examples.arnA, "bad"]))
        (some [("MyRole", Examples.mkRole "MyRole" none)])).Resources =
      some [("MyRole", Examples.mkRole "MyRole" (some [Examples.arnA]))] ∧
    (Part000.attachManagedPolicy (some (.arr [Examples.arnA, "bad"]))
        (some [("MyRole", Examples.mkRole "MyRole" none)])).Resources ≠
      some [("MyRole", Examples.mkRole "MyRole" none)] := by
  refine ⟨rfl, rfl, ?_⟩
  decide

/-- Claim C1, amended: in the `src/lib/index.js` revision the claim holds as
stated: whenever `attachManagedPolicy` throws (`err` is set), the validation
in `verifyConfig` failed before the first log line and before any mutation,
so the resource collection is returned exactly as it was and no log output
was produced. In `src/unnamed/part_000` validation is interleaved with
mutation per policy and per role, so atomicity fails there (see the
counterexample). -/
theorem c1_amended (cfg : Option ConfigValue) (resources : Option (List (String × Resource)))
    (h : (LibIndex.attachManagedPolicy cfg resources).err.isSome = true) :
    (LibIndex.attachManagedPolicy cfg resources).Resources = resources ∧
    (LibIndex.attachManagedPolicy cfg resources).logs = [] :=
  LibIndex.attach_err cfg resources h

/-- Claim C1, witness for the amended theorem at a concrete erroring input. -/
theorem c1_amended_witness :
    (LibIndex.attachManagedPolicy (some (.str "bad"))
        (some [("MyRole", Examples.mkRole "MyRole" none)])).Resources =
      some [("MyRole", Examples.mkRole "MyRole" none)] ∧
    (LibIndex.attachManagedPolicy (some (.str "bad"))
        (some [("MyRole", Examples.mkRole "MyRole" none)])).logs = [] :=
  c1_amended (some (.str "bad")) (some [("MyRole", Examples.mkRole "MyRole" none)]) rfl

/-- Claim C2, counterexample: an empty-but-present resource collection does
not short-circuit. With a valid configuration and an empty-but-present
`Resources` mapping, both revisions emit their framing log lines (three in
`part_000`, two in `lib/index.js`), not zero. -/
theorem c2_counterexample :
    (Part000.attachManagedPolicy (some (.arr [Examples.arnA])) (some [])).logs =
      ["Adding managed policies...", "Searching for roles...", "Managed policy done."] ∧
    (LibIndex.attachManagedPolicy (some (.arr [Examples.arnA])) (some [])).logs =
      ["Begin Attach Managed Policies plugin...", "Attach Managed Policies plugin done."] ∧
    (Part000.attachManagedPolicy (some (.arr [Examples.arnA])) (some [])).logs ≠ [] := by
  refine ⟨rfl, rfl, ?_⟩
  decide

/-- Claim C2, amended: the silent no-op holds when the configuration value is
absent or falsy, or when the resource collection is absent — in both
revisions the call returns with no log line, no mutation and no error. An
empty-but-present collection instead proceeds (and emits the framing log
lines), though it still mutates nothing. -/
theorem c2_amended :
    (∀ (cfg : Option ConfigValue) (resources : Option (List (String × Resource))),
      configTruthy cfg = false →
      Part000.attachManagedPolicy cfg resources = ⟨resources, [], none⟩ ∧
      LibIndex.attachManagedPolicy cfg resources = ⟨resources, [], none⟩) ∧
    (∀ cfg : Option ConfigValue,
      Part000.attachManagedPolicy cfg none = ⟨none, [], none⟩ ∧
      LibIndex.attachManagedPolicy cfg none = ⟨none, [], none⟩) :=
  ⟨fun cfg res h => ⟨Part000.attach_falsy cfg res h, LibIndex.lib_attach_falsy cfg res h⟩,
   fun cfg => ⟨Part000.attach_noRes cfg, LibIndex.lib_attach_noRes cfg⟩⟩

/-- Claim C2, witness for the amended theorem: absent configuration with a
present role resource is a silent no-op. -/
theorem c2_amended_witness :
    Part000.attachManagedPolicy none (some [("R", Examples.mkRole "R" none)]) =
      ⟨some [("R", Examples.mkRole "R" none)], [], none⟩ :=
  (c2_amended.1 none (some [("R", Examples.mkRole "R" none)]) rfl).1

/-- Claim C3: in `src/unnamed/part_000` the merge is exactly as the claim
states — pre-existing identifiers first, in their original order, then the
configured identifiers not yet present, appended in configuration order with
first occurrence only. In `src/lib/index.js` the order is reversed at the
repository's own test input (`index.spec.js`, 'can add an additional policy
to a role' expects `[arnA, arnB]`): `policies.concat(existing)` puts the new
identifier first, producing `[arnB, arnA]`. -/
theorem c3_theorem :
    (∀ (rn : String) (ps E : List String) (other : List (String × String)),
      (∀ p ∈ ps, matchPolicyArn p = true) →
      (Part000.applyPoliciesToRole ps ⟨rn, some E, other⟩).1 =
        ⟨rn, some (E ++ dedupFirst (ps.filter (fun p => !(E.contains p)))), other⟩) ∧
    LibIndex.jsUniq ([Examples.arnB] ++ [Examples.arnA]) = [Examples.arnB, Examples.arnA] := by
  constructor
  · intro rn ps E other hval
    rw [(Part000.apply_ok ps hval ⟨rn, some E, other⟩).1]
    rfl
  · decide

/-- Claim C3, witness: one policy merged onto a role that already holds one,
in the `part_000` revision, appends it after the existing entry. -/
theorem c3_theorem_witness :
    (Part000.applyPoliciesToRole [Examples.arnB]
        ⟨"MyRole", some [Examples.arnA], []⟩).1 =
      ⟨"MyRole", some [Examples.arnA, Examples.arnB], []⟩ := by
  rw [c3_theorem.1 "MyRole" [Examples.arnB] [Examples.arnA] [] (by decide),
    ← jsUniq_eq_dedupFirst]
  decide

/-- Claim C4, counterexample: the regular expression accepts
`arn:aws:iam::123:policy/` although its remainder after `policy/` is empty —
`.*` matches the empty string — while the claim requires a non-empty
remainder: no decomposition of this accepted value has one. -/
theorem c4_counterexample :
    matchPolicyArn "arn:aws:iam::123:policy/" = true ∧
    ¬ ∃ d r : String, "arn:aws:iam::123:policy/" = "arn:aws:iam::" ++ d ++ ":policy/" ++ r ∧
        d ≠ "" ∧ d.data.all Char.isDigit = true ∧ r ≠ "" := by
  refine ⟨rfl, ?_⟩
  rintro ⟨d, r, heq, hd, hdig, hr⟩
  have hcomp := arnRemainder_complete d r hd hdig
  rw [← heq] at hcomp
  have hrem : arnRemainder "arn:aws:iam::123:policy/" = some [] := rfl
  rw [hrem] at hcomp
  have hdata : r.data = [] := by simpa using hcomp.symm
  exact hr (eq_empty_of_data_eq_nil hdata)

/-- Claim C4, amended: validation accepts an element exactly when it is
`arn:aws:iam::<digits>:policy/<remainder>` with at least one digit and a
possibly-empty remainder containing no JavaScript line terminator; on the
first non-matching element, in sequence order, it throws exactly
`"<value>" is not a valid policy ARN.`. -/
theorem c4_amended :
    (∀ s : String, matchPolicyArn s = true ↔
      ∃ d r : String, s = "arn:aws:iam::" ++ d ++ ":policy/" ++ r ∧ d ≠ "" ∧
        d.data.all Char.isDigit = true ∧
        r.data.all (fun c => !(isJsLineTerminator c)) = true) ∧
    (∀ (pre : List String) (p : String) (post : List String),
      (∀ q ∈ pre, matchPolicyArn q = true) → matchPolicyArn p = false →
      LibIndex.validatePolicies (pre ++ p :: post) =
        .error ("\"" ++ p ++ "\" is not a valid policy ARN.")) := by
  constructor
  · exact matchPolicyArn_iff
  · intro pre p post hpre hp
    induction pre with
    | nil => simp [LibIndex.validatePolicies, hp]
    | cons q pre ih =>
      have hq : matchPolicyArn q = true := hpre q (List.mem_cons_self q pre)
      simp only [List.cons_append, LibIndex.validatePolicies, hq]
      simpa using ih (fun x hx => hpre x (List.mem_cons_of_mem q hx))

/-- Claim C4, witness for the amended theorem: the second element is the
first non-matching one and produces exactly the claimed message. -/
theorem c4_amended_witness :
    LibIndex.validatePolicies ["arn:aws:iam::1:policy/x", "bad"] =
      .error ("\"bad\" is not a valid policy ARN.") :=
  c4_amended.2 ["arn:aws:iam::1:policy/x"] "bad" [] (by decide) (by decide)

end AttachManagedPolicy

namespace AttachManagedPolicy.Part000

open AttachManagedPolicy

theorem configTruthy_of_ok {c : ConfigValue} {ps : List String}
    (hc : policiesArray c = .ok ps) (hval : ∀ p ∈ ps, matchPolicyArn p = true) :
    configTruthy (some c) = true := by
  cases c with
  | str s =>
    have hs : [s] = ps := by simpa [policiesArray] using hc
    have hv : matchPolicyArn s = true := hval s (by rw [← hs]; exact List.mem_singleton.mpr rfl)
    have hne : ¬(s = "") := by
      intro h
      rw [h] at hv
      exact absurd hv (by decide)
    simp [configTruthy, hne]
  | arr l => rfl
  | other t => simp [policiesArray] at hc

theorem attach_ok_cfg (c : ConfigValue) (ps : List String) (res : List (String × Resource))
    (hc : policiesArray c = .ok ps) (hval : ∀ p ∈ ps, matchPolicyArn p = true) :
    (attachManagedPolicy (some c) (some res)).Resources =
        some (res.map (updateResource ps)) ∧
    (attachManagedPolicy (some c) (some res)).err = none := by
  have hloop : ∀ r : List (String × Resource),
      (attachLoop c r).1 = r.map (updateResource ps) ∧ (attachLoop c r).2.2 = none := by
    intro r
    induction r with
    | nil => exact ⟨rfl, rfl⟩
    | cons kr rest ih =>
      obtain ⟨k, rr⟩ := kr
      by_cases ht : (rr.Type' == "AWS::IAM::Role") = true
      · have happ := apply_ok ps hval rr.Properties
        rw [loop_cons_role hc ht happ.2]
        refine ⟨?_, ih.2⟩
        simp only [List.map_cons, updateResource, ht, if_true, ih.1]
      · have htf : (rr.Type' == "AWS::IAM::Role") = false := by simpa using ht
        rw [loop_cons_nonrole htf]
        refine ⟨?_, ih.2⟩
        simp only [List.map_cons, updateResource, htf, Bool.false_eq_true, if_false, ih.1]
  have htruthy := configTruthy_of_ok hc hval
  constructor
  · rw [attach_resources c res htruthy, (hloop res).1]
  · simp only [attachManagedPolicy, (hloop res).2]
    split <;> rfl

end AttachManagedPolicy.Part000

namespace AttachManagedPolicy.LibIndex

open AttachManagedPolicy

theorem verifyConfig_ok_truthy {c : ConfigValue} {ps : List String}
    (hv : verifyConfig (some c) = .ok (some ps)) : configTruthy (some c) = true := by
  by_cases hcf : configTruthy (some c) = false
  · simp only [verifyConfig, hcf, if_pos] at hv
    exact absurd hv (by simp)
  · simpa using hcf

end AttachManagedPolicy.LibIndex

namespace AttachManagedPolicy

/-- Claim C5, counterexample: in `src/unnamed/part_000` a pre-existing
duplicate survives both invocations. With existing list `[arnA, arnA]` and
configuration `[arnB]`, the collection after the second invocation still
holds `[arnA, arnA, arnB]`, which has duplicate entries, contradicting the
claim that after the second call no list has duplicates. -/
theorem c5_counterexample :
    (Part000.attachManagedPolicy (some (.arr [Examples.arnB]))
        ((Part000.attachManagedPolicy (some (.arr [Examples.arnB]))
          (some [("R", Examples.mkRole "R" (some [Examples.arnA, Examples.arnA]))])).Resources)).Resources =
      some [("R", Examples.mkRole "R" (some [Examples.arnA, Examples.arnA, Examples.arnB]))] ∧
    ¬ ([Examples.arnA, Examples.arnA, Examples.arnB].Nodup) := by
  refine ⟨rfl, ?_⟩
  decide

/-- Claim C5, amended: for every valid configuration — a single valid ARN
string or an array of valid ARNs, i.e. any value the revision's own
normalization and validation accept — a second invocation of either revision
on the collection produced by the first leaves it unchanged (the merge is a
set union with respect to already-applied identifiers). The no-duplicates
guarantee holds unconditionally in `src/lib/index.js` (its merge
de-duplicates globally), while in `src/unnamed/part_000` it holds for every
role whose pre-existing list was itself duplicate-free: the append-only
merge never introduces a duplicate, but never removes a pre-existing one
either. -/
theorem c5_amended :
    (∀ (c : ConfigValue) (ps : List String) (res : List (String × Resource)),
      Part000.policiesArray c = .ok ps →
      (∀ p ∈ ps, matchPolicyArn p = true) →
      ∀ res₁, (Part000.attachManagedPolicy (some c) (some res)).Resources = some res₁ →
        (Part000.attachManagedPolicy (some c) (some res₁)).Resources = some res₁ ∧
        ((∀ kr ∈ res, ∀ L, kr.2.Properties.ManagedPolicyArns = some L → L.Nodup) →
          ∀ kr ∈ res₁, ∀ L, kr.2.Properties.ManagedPolicyArns = some L → L.Nodup)) ∧
    (∀ (c : ConfigValue) (ps : List String) (res : List (String × Resource)),
      LibIndex.verifyConfig (some c) = .ok (some ps) →
      ∀ res₁, (LibIndex.attachManagedPolicy (some c) (some res)).Resources = some res₁ →
        (LibIndex.attachManagedPolicy (some c) (some res₁)).Resources = some res₁ ∧
        (∀ kr ∈ res₁, kr.2.Type' = "AWS::IAM::Role" →
          ∀ L, kr.2.Properties.ManagedPolicyArns = some L → L.Nodup)) := by
  constructor
  · intro c ps res hc hval res₁ h₁
    have hout := Part000.attach_ok_cfg c ps res hc hval
    rw [hout.1] at h₁
    obtain rfl : res.map (Part000.updateResource ps) = res₁ := by simpa using h₁
    constructor
    · have hout2 := Part000.attach_ok_cfg c ps (res.map (Part000.updateResource ps)) hc hval
      rw [hout2.1, List.map_map]
      congr 1
      exact List.map_congr_left (fun kr _ => Part000.update_idem ps hval kr)
    · intro hinit kr hkr L hL
      obtain ⟨kr₀, hkr₀, rfl⟩ := List.mem_map.mp hkr
      by_cases ht : (kr₀.2.Type' == "AWS::IAM::Role") = true
      · have h1 := (Part000.apply_ok ps hval kr₀.2.Properties).1
        rw [show Part000.updateResource ps kr₀ =
          (kr₀.1, { kr₀.2 with Properties := (Part000.applyPoliciesToRole ps kr₀.2.Properties).1 }) from by
            simp [Part000.updateResource, ht]] at hL
        rw [h1] at hL
        have hL' : Part000.mergeMp kr₀.2.Properties.ManagedPolicyArns ps = some L := hL
        exact Part000.mergeMp_nodup (fun E hE => hinit kr₀ hkr₀ E hE) hL'
      · have htf : (kr₀.2.Type' == "AWS::IAM::Role") = false := by simpa using ht
        rw [show Part000.updateResource ps kr₀ = kr₀ from by
          simp [Part000.updateResource, htf]] at hL
        exact hinit kr₀ hkr₀ L hL
  · intro c ps res hv res₁ h₁
    have htruthy := LibIndex.verifyConfig_ok_truthy hv
    have hout := LibIndex.attach_verify_ok res htruthy hv
    rw [hout] at h₁
    obtain rfl : res.map (LibIndex.updateResource ps) = res₁ := by simpa using h₁
    constructor
    · have hout2 := LibIndex.attach_verify_ok (res.map (LibIndex.updateResource ps)) htruthy hv
      rw [hout2]
      show some ((res.map (LibIndex.updateResource ps)).map (LibIndex.updateResource ps)) =
        some (res.map (LibIndex.updateResource ps))
      rw [List.map_map]
      congr 1
      exact List.map_congr_left (fun kr _ => LibIndex.lib_update_idem ps kr)
    · intro kr hkr hrole L hL
      obtain ⟨kr₀, hkr₀, rfl⟩ := List.mem_map.mp hkr
      by_cases ht : (kr₀.2.Type' == "AWS::IAM::Role") = true
      · rw [show LibIndex.updateResource ps kr₀ =
          (kr₀.1, { kr₀.2 with Properties := (LibIndex.applyPoliciesToRole ps kr₀.2.Properties).1 }) from by
            simp [LibIndex.updateResource, ht]] at hL
        have hL' : some (LibIndex.jsUniq (ps ++ kr₀.2.Properties.ManagedPolicyArns.getD [])) =
            some L := hL
        obtain rfl : LibIndex.jsUniq (ps ++ kr₀.2.Properties.ManagedPolicyArns.getD []) = L := by
          simpa using hL'
        exact nodup_jsUniq _
      · have htf : (kr₀.2.Type' == "AWS::IAM::Role") = false := by simpa using ht
        rw [show LibIndex.updateResource ps kr₀ = kr₀ from by
          simp [LibIndex.updateResource, htf]] at hrole
        rw [hrole] at htf
        simp at htf

/-- Claim C5, witness for the amended theorem, exercising the single-string
configuration form: a role that already carries `arnA`, with configuration
the single string `arnB` — in `part_000` the second invocation leaves the
collection unchanged, and the resulting list is duplicate-free. -/
theorem c5_amended_witness :
    (Part000.attachManagedPolicy (some (.str Examples.arnB))
        (some [("R", ⟨"AWS::IAM::Role", ⟨"R", some [Examples.arnA, Examples.arnB], []⟩⟩)])).Resources =
      some [("R", ⟨"AWS::IAM::Role", ⟨"R", some [Examples.arnA, Examples.arnB], []⟩⟩)] ∧
    [Examples.arnA, Examples.arnB].Nodup := by
  have h := (c5_amended.1 (.str Examples.arnB) [Examples.arnB]
    [("R", ⟨"AWS::IAM::Role", ⟨"R", some [Examples.arnA], []⟩⟩)] rfl (by decide)
    [("R", ⟨"AWS::IAM::Role", ⟨"R", some [Examples.arnA, Examples.arnB], []⟩⟩)] (by decide)).1
  exact ⟨h, by decide⟩

/-- Claim C6: `policiesArray` of `part_000` normalizes a single string into
the one-element sequence, returns an array unchanged, and throws
`managedPolicyArns must be an array` on anything else; `verifyConfig` of
`lib/index.js` throws the equivalent message
`managedPolicyArns must be a single policy ARN or an array of them` for a
truthy value of any other type. -/
theorem c6_theorem :
    (∀ s : String, Part000.policiesArray (.str s) = .ok [s]) ∧
    (∀ l : List String, Part000.policiesArray (.arr l) = .ok l) ∧
    (∀ t : Bool, Part000.policiesArray (.other t) = .error "managedPolicyArns must be an array") ∧
    LibIndex.verifyConfig (some (.other true)) =
      .error "managedPolicyArns must be a single policy ARN or an array of them" :=
  ⟨fun _ => rfl, fun _ => rfl, fun _ => rfl, rfl⟩

/-- Claim C7, counterexample: a present configuration value that is neither a
string nor an array but is falsy in JavaScript (`null`, `false`, `0`, `NaN`)
does not make attach fail: the truthiness guard returns silently before any
type check, in both revisions, with no ConfigurationError. -/
theorem c7_counterexample :
    Part000.attachManagedPolicy (some (.other false))
        (some [("MyRole", Examples.mkRole "MyRole" none)]) =
      ⟨some [("MyRole", Examples.mkRole "MyRole" none)], [], none⟩ ∧
    LibIndex.attachManagedPolicy (some (.other false))
        (some [("MyRole", Examples.mkRole "MyRole" none)]) =
      ⟨some [("MyRole", Examples.mkRole "MyRole" none)], [], none⟩ :=
  ⟨rfl, rfl⟩

/-- Claim C7, amended: for a truthy present configuration value that is
neither a string nor an array, `lib/index.js` always throws its
ConfigurationError with no mutation and no log line; `part_000` normalizes
per role, so it throws exactly when the collection contains at least one
`AWS::IAM::Role` resource (after the two framing log lines), also mutating
nothing; falsy malformed values are treated as an absent configuration. -/
theorem c7_amended :
    (∀ res : List (String × Resource),
      LibIndex.attachManagedPolicy (some (.other true)) (some res) =
        ⟨some res, [], some "managedPolicyArns must be a single policy ARN or an array of them"⟩) ∧
    (∀ res : List (String × Resource),
      (∃ kr ∈ res, kr.2.Type' = "AWS::IAM::Role") →
      Part000.attachManagedPolicy (some (.other true)) (some res) =
        ⟨some res, ["Adding managed policies...", "Searching for roles..."],
         some "managedPolicyArns must be an array"⟩) :=
  ⟨fun res => LibIndex.attach_verify_err res rfl rfl,
   fun res hex => Part000.attach_othercfg res hex⟩

/-- Claim C7, witness for the amended theorem at a one-role collection. -/
theorem c7_amended_witness :
    Part000.attachManagedPolicy (some (.other true))
        (some [("MyRole", Examples.mkRole "MyRole" none)]) =
      ⟨some [("MyRole", Examples.mkRole "MyRole" none)],
       ["Adding managed policies...", "Searching for roles..."],
       some "managedPolicyArns must be an array"⟩ :=
  c7_amended.2 [("MyRole", Examples.mkRole "MyRole" none)]
    ⟨("MyRole", Examples.mkRole "MyRole" none), by simp, rfl⟩

/-- Claim C8: for every configuration and resource collection, both revisions
return a collection related entry-by-entry to the original — same keys in the
same order (so nothing is added or removed), same `Type`, same `RoleName` and
other properties, and every resource whose `Type` is not `AWS::IAM::Role` is
returned entirely unchanged; only `Properties.ManagedPolicyArns` of role
resources can differ. This holds on success and on the error path alike. -/
theorem c8_theorem :
    ∀ (cfg : Option ConfigValue) (res : List (String × Resource)),
      (∃ res', (Part000.attachManagedPolicy cfg (some res)).Resources = some res' ∧
        List.Forall₂ FrameRel res res') ∧
      (∃ res', (LibIndex.attachManagedPolicy cfg (some res)).Resources = some res' ∧
        List.Forall₂ FrameRel res res') :=
  fun cfg res => ⟨Part000.attach_frame cfg res, LibIndex.lib_attach_frame cfg res⟩

/-- Claim C9: with configuration `[]` and an empty resource mapping, the
`part_000` revision emits exactly the three claimed log lines in order and
mutates nothing — but `lib/index.js`, the module loaded by the repository's
own test suite, emits two different lines, failing its own test. -/
theorem c9_theorem :
    Part000.attachManagedPolicy (some (.arr [])) (some []) =
      ⟨some [], ["Adding managed policies...", "Searching for roles...", "Managed policy done."], none⟩ ∧
    LibIndex.attachManagedPolicy (some (.arr [])) (some []) =
      ⟨some [], ["Begin Attach Managed Policies plugin...", "Attach Managed Policies plugin done."], none⟩ :=
  ⟨rfl, rfl⟩

/-- Claim C10: the empty string is falsy in JavaScript, so a configured
`managedPolicyArns` of `""` short-circuits both revisions silently — no log
line, no mutation, no error — even though the ARN pattern check would have
rejected it (it does not match the pattern). -/
theorem c10_theorem :
    matchPolicyArn "" = false ∧
    ∀ resources : Option (List (String × Resource)),
      Part000.attachManagedPolicy (some (.str "")) resources = ⟨resources, [], none⟩ ∧
      LibIndex.attachManagedPolicy (some (.str "")) resources = ⟨resources, [], none⟩ :=
  ⟨rfl, fun resources =>
    ⟨Part000.attach_falsy (some (.str "")) resources rfl,
     LibIndex.lib_attach_falsy (some (.str "")) resources rfl⟩⟩

end AttachManagedPolicy
